import Mathlib

/-!
Verification development for the robotframework-excellentlibrary repository
(file src/ExcellentLibrary/ExcellentLibrary.py).

The Python code is shallowly embedded: strings are lists of characters,
Python exceptions become an error type `PyErr`, fallible code returns
`Except PyErr _`, and the mutable registry of the `ExcellentLibrary` class
becomes explicit state passing over `RegistryState`.  Each definition below
names the Python function or method it embeds.
-/

namespace Excellent

/-- Python exception kinds raised (or defined) by the embedded code.
Builtin exceptions (`ValueError`, `KeyError`, `IndexError`, `AttributeError`)
are distinguished from the library's own exception classes. -/
inductive PyErr where
  | valueError
  | keyError
  | indexError
  | attributeError
  | invalidCellCoordinates
  | aliasAlreadyInUse (a : String)
  | fileAlreadyOpened (p : String) (a : Option String)
  | fileAlreadyExists (p : String)
  | unknownWorkbook (a : String)
  | unopenedWorkbook (a : String)
  | sheetNotFound (n : String)
  | sheetExistsAlready (n : String)
  | tooFewColumnNames
  | excelFileNotFound (p : String)
  deriving DecidableEq

deriving instance DecidableEq for Except

/-- Python's `str.isdigit` restricted to the ASCII range handled by the
library (`'0'` has code 48, `'9'` has code 57). -/
def pyIsDigit (c : Char) : Bool := 48 ≤ c.toNat && c.toNat ≤ 57

/-- The whitespace characters stripped by Python's `str.strip()`. -/
def pyIsSpace (c : Char) : Bool :=
  c = ' ' || c = '\t' || c = '\n' || c = '\r' || c = '\x0b' || c = '\x0c'

/-- Python `str.strip()`: remove leading and trailing whitespace. -/
def pyStripWs (s : List Char) : List Char :=
  ((s.dropWhile pyIsSpace).reverse.dropWhile pyIsSpace).reverse

/-- Python `str.lstrip(t)` for a single character `t`. -/
def lstripChar (t : Char) (s : List Char) : List Char :=
  s.dropWhile (fun c => c = t)

/-- Python `str.rstrip(t)` for a single character `t`. -/
def rstripChar (t : Char) (s : List Char) : List Char :=
  (s.reverse.dropWhile (fun c => c = t)).reverse

/-- Python `str.split(sep)` for a single-character separator: always returns
at least one (possibly empty) part. -/
def pySplit (sep : Char) : List Char → List (List Char)
  | [] => [[]]
  | c :: cs =>
    if c = sep then [] :: pySplit sep cs
    else
      match pySplit sep cs with
      | [] => [[c]]
      | p :: ps => (c :: p) :: ps

/-- Decimal value of a list of digit characters. -/
def digitsVal (ds : List Char) : Nat :=
  ds.foldl (fun a c => a * 10 + (c.toNat - 48)) 0

/-- The body of Python `int(s)` after whitespace stripping: one optional
sign, then a required nonempty run of digits; anything else `ValueError`. -/
def pyIntCore : List Char → Except PyErr Int
  | [] => .error .valueError
  | c :: cs =>
    if c = '+' then
      if !cs.isEmpty && cs.all pyIsDigit then .ok (digitsVal cs)
      else .error .valueError
    else if c = '-' then
      if !cs.isEmpty && cs.all pyIsDigit then .ok (-(digitsVal cs : Int))
      else .error .valueError
    else
      if (c :: cs).all pyIsDigit then .ok (digitsVal (c :: cs))
      else .error .valueError

/-- Python `int(s)` on a string: strip whitespace, then parse. -/
def pyInt (s : List Char) : Except PyErr Int := pyIntCore (pyStripWs s)

/-- Uppercase letters `A`..`Z` (codes 65..90). -/
def isUpperAZ (c : Char) : Bool := 65 ≤ c.toNat && c.toNat ≤ 90

/-- Standard bijective base-26 decoding of a column label:
`A` = 1, `Z` = 26, `AA` = 27, computed over uppercase letters
(`'A'` has code 65, so a letter `c` contributes `c.toNat - 64`). -/
def bijBase26 (u : List Char) : Nat :=
  u.foldl (fun a c => a * 26 + (c.toNat - 64)) 0

/-- Model of the collaborator utility `openpyxl.utils.column_index_from_string`:
the input is uppercased and looked up in a cache of all column labels of one
to three letters (columns `A` up to `ZZZ`); a hit returns the bijective
base-26 value, a miss raises `ValueError`. -/
def column_index_from_string (s : List Char) : Except PyErr Nat :=
  if 1 ≤ (s.map Char.toUpper).length ∧ (s.map Char.toUpper).length ≤ 3 ∧
      (s.map Char.toUpper).all isUpperAZ = true then
    .ok (bijBase26 (s.map Char.toUpper))
  else .error .valueError

/-- The literal prefix `coords:` stripped in the coordinate branch. -/
def coordsPfx : List Char := ['c', 'o', 'o', 'r', 'd', 's', ':']

/-- The literal prefix `a1:` stripped in the letter branch. -/
def a1Pfx : List Char := ['a', '1', ':']

/-- Python `s[len(p):] if s.startswith(p) else s`. -/
def dropPfx (p s : List Char) : List Char :=
  if p.isPrefixOf s then s.drop p.length else s

/-- Embeds `ExcellentLibrary._resolve_cell_coordinates` (lines 349-388).
The locator is stripped; if it contains a comma the coordinate branch strips
an optional `coords:` prefix, strips parentheses with `lstrip('(')` and
`rstrip(')')` (twice, as the source does), splits on commas, and returns
`(int(parts[1]), int(parts[0]))`; otherwise the letter branch strips an
optional `a1:` prefix, routes digit characters into a row buffer and every
other character into a column buffer, and returns
`(int(rowbuffer), column_index_from_string(colbuffer))`. -/
def _resolve_cell_coordinates (l0 : List Char) : Except PyErr (Int × Int) :=
  let l := pyStripWs l0
  if ',' ∈ l then
    let l1 := dropPfx coordsPfx l
    let l2 := rstripChar ')' (lstripChar '(' l1)
    match pySplit ',' (rstripChar ')' (lstripChar '(' l2)) with
    | p0 :: p1 :: _ => do
      let r ← pyInt (pyStripWs p1)
      let c ← pyInt (pyStripWs p0)
      pure (r, c)
    | _ => .error .indexError
  else
    let l1 := dropPfx a1Pfx l
    let a1_row := l1.filter pyIsDigit
    let a1_col := l1.filter (fun c => !(pyIsDigit c))
    do
      let c ← column_index_from_string a1_col
      let r ← pyInt a1_row
      pure (r, (c : Int))

/-- One entry of the opened-workbooks dictionary (see the docstring of
`_add_to_workbooks`): the absolute file path and the opaque OpenPyXL
workbook object (represented by a numeric id). -/
structure Entry where
  file_path : String
  workbook : Nat
  deriving DecidableEq

/-- The mutable state of the `ExcellentLibrary` instance (lines 284-287):
the opened-workbooks dictionary (as an insertion-ordered association list
with unique keys), the active alias, and the active workbook object. -/
structure RegistryState where
  workbooks : List (String × Entry)
  active_workbook_alias : Option String
  active_workbook : Option Nat
  deriving DecidableEq

/-- Dictionary lookup `self.workbooks[a]` as an `Option`. -/
def wbLookup (w : List (String × Entry)) (a : String) : Option Entry :=
  (w.find? (fun e => e.1 = a)).map (fun e => e.2)

/-- The state built by `__init__` (lines 284-287). -/
def emptyRegistry : RegistryState := ⟨[], none, none⟩

/-- Embeds `_set_new_active_workbook` (lines 390-396): raises
`UnknownWorkbookException` when the alias is not a key of `workbooks`,
otherwise sets both `active_workbook_alias` and `active_workbook`. -/
def _set_new_active_workbook (s : RegistryState) (a : String) :
    Except PyErr RegistryState :=
  match wbLookup s.workbooks a with
  | none => .error (.unknownWorkbook a)
  | some e => .ok { s with active_workbook_alias := some a,
                           active_workbook := some e.workbook }

/-- Embeds `_get_alias_of_workbook_by_file_path` (lines 324-330): the first
alias whose entry holds the given file path, `None` when there is none. -/
def _get_alias_of_workbook_by_file_path (s : RegistryState) (p : String) :
    Option String :=
  (s.workbooks.find? (fun e => e.2.file_path = p)).map (fun e => e.1)

/-- The alias actually used by `_add_to_workbooks`: Python's `if not alias`
treats an absent and an empty-string alias alike, defaulting both to the
absolute file path. -/
def resolvedAlias (p : String) (al : Option String) : String :=
  match al with
  | none => p
  | some x => if x = "" then p else x

/-- Embeds `_add_to_workbooks` (lines 289-322).  `p` is the absolute path
`os.path.abspath(file_path)` (an external OS call, taken as already
computed).  The alias-collision check comes first, then the
path-deduplication scan over the registered entries; only after both pass is
the entry inserted and made active. -/
def _add_to_workbooks (s : RegistryState) (p : String) (wb : Nat)
    (al : Option String) : Except PyErr RegistryState :=
  let a := resolvedAlias p al
  if (wbLookup s.workbooks a).isSome then .error (.aliasAlreadyInUse a)
  else if s.workbooks.any (fun e => e.2.file_path = p) then
    .error (.fileAlreadyOpened p (_get_alias_of_workbook_by_file_path s p))
  else
    _set_new_active_workbook { s with workbooks := s.workbooks ++ [(a, ⟨p, wb⟩)] } a

/-- Embeds `open_workbook` (lines 505-538) after a successful
`openpyxl.load_workbook` call (the loaded workbook object is the opaque id
`wb`): the registration itself is `_add_to_workbooks`. -/
def open_workbook (s : RegistryState) (p : String) (wb : Nat)
    (al : Option String) : Except PyErr RegistryState :=
  _add_to_workbooks s p wb al

/-- Embeds `create_workbook` (lines 447-473): `ex` is the result of the
external `os.path.isfile(file_path)` check, `ov` the
`overwrite_file_if_exists` flag; the save through the collaborator touches
no registry state, and registration is again `_add_to_workbooks`. -/
def create_workbook (s : RegistryState) (p : String) (ex ov : Bool) (wb : Nat)
    (al : Option String) : Except PyErr RegistryState :=
  if ex && !ov then .error (.fileAlreadyExists p)
  else _add_to_workbooks s p wb al

/-- The alias a falsy (absent or empty) `close_workbook` argument defaults
to: the active alias, which may itself be `None`. -/
def closeAlias (s : RegistryState) (al : Option String) : Option String :=
  match al with
  | none => s.active_workbook_alias
  | some x => if x = "" then s.active_workbook_alias else some x

/-- The mutating tail of `close_workbook` once the entry to close exists:
`_remove_from_workbooks` deletes the alias from the dictionary, and
`self.workbooks.keys()[0]` is re-elected as active exactly when the closed
alias was the active one (`set_new_active_workbook`, decided up front) *and*
at least one workbook remains (`len(self.workbooks) > 0`) — nothing ever
clears `active_workbook_alias` otherwise. -/
def closeRemove (s : RegistryState) (a : String) : RegistryState :=
  if some a = s.active_workbook_alias ∧
      s.workbooks.filter (fun e => !decide (e.1 = a)) ≠ [] then
    match s.workbooks.filter (fun e => !decide (e.1 = a)) with
    | [] => { s with workbooks := [] }
    | (b, e) :: t =>
      { s with workbooks := (b, e) :: t,
               active_workbook_alias := some b,
               active_workbook := some e.workbook }
  else { s with workbooks := s.workbooks.filter (fun e => !decide (e.1 = a)) }

/-- Embeds `close_workbook` (lines 404-433) together with
`_remove_from_workbooks` (lines 341-347).  The second component is `true`
when the `except KeyError` branch fired and only a warning was logged.
A falsy (absent or empty) alias defaults to the active alias (which may be
`None`); looking up a missing key — or the key `None` — raises the
`KeyError` caught as a warning, leaving the state untouched. -/
def close_known (s : RegistryState) (a : String) : RegistryState × Bool :=
  match wbLookup s.workbooks a with
  | none => (s, true)
  | some _ => (closeRemove s a, false)

/-- Embeds `close_workbook` proper: default a falsy alias to the active
alias (possibly `None`, whose dictionary lookup also raises the warned-about
`KeyError`), then run the lookup-close-re-elect body `close_known`. -/
def close_workbook (s : RegistryState) (al : Option String) :
    RegistryState × Bool :=
  match closeAlias s al with
  | none => (s, true)
  | some a => close_known s a

/-- Embeds `close_all_workbooks` (lines 398-402): iterate over a snapshot of
the keys (Python 2's `keys()` returns a list) closing each in turn. -/
def close_all_workbooks (s : RegistryState) : RegistryState :=
  (s.workbooks.map (fun e => e.1)).foldl
    (fun st a => (close_workbook st (some a)).1) s

/-- Embeds `switch_workbook` (lines 734-747): `_set_new_active_workbook`
wrapped in `try: ... except KeyError: raise UnopenedWorkbookException`.
The callee raises `UnknownWorkbookException` — not `KeyError` — for an
unknown alias, so the handler is dead code; the embedding keeps it. -/
def switch_workbook (s : RegistryState) (a : String) :
    Except PyErr RegistryState :=
  match _set_new_active_workbook s a with
  | .error .keyError => .error (.unopenedWorkbook a)
  | r => r

/-- Cell values as the library sees them: absent (`None`), textual, or a
non-textual value such as a number (represented by an integer payload). -/
inductive PyValue where
  | vNone
  | vStr (s : List Char)
  | vInt (n : Int)
  deriving DecidableEq

/-- `value is None` as a boolean test. -/
def isNoneV : PyValue → Bool
  | .vNone => true
  | _ => false

/-- A worksheet as a padded grid: `rows` lists the cell values row by row,
the 1-based cell `(r, c)` living at `rows[r-1][c-1]`; cells outside the
grid read `None`. -/
structure PySheet where
  rows : List (List PyValue)
  deriving DecidableEq

/-- An openpyxl workbook as seen by `switch_sheet`: the sheet names and the
index of the active sheet. -/
structure PyWorkbook where
  sheetnames : List String
  active : Nat
  deriving DecidableEq

/-- Embeds `switch_sheet` (lines 723-732): `self.active_workbook[sheet_name]`
is the collaborator's `__getitem__`, which raises a plain `KeyError` when no
sheet has that name (there is no `try`/`except` here, unlike `remove_sheet`);
on success the sheet's index becomes the workbook's active index. -/
def switch_sheet (wb : PyWorkbook) (n : String) : Except PyErr PyWorkbook :=
  if n ∈ wb.sheetnames then
    .ok { wb with active := wb.sheetnames.findIdx (fun x => x = n) }
  else .error .keyError

/-- `Sheet.cell(row, col)` of the collaborator: valid 1-based indices return
the stored value (`None` where the grid has no cell); openpyxl raises
`ValueError` for indices below 1. -/
def sheetCell (sh : PySheet) (r c : Int) : Except PyErr PyValue :=
  if 1 ≤ r ∧ 1 ≤ c then
    .ok ((sh.rows.getD (r.toNat - 1) []).getD (c.toNat - 1) .vNone)
  else .error .valueError

/-- Embeds `read_from_cell` (lines 540-581): a supplied `cell_obj` bypasses
the locator, otherwise the locator resolves through
`_resolve_cell_coordinates` and the cell is fetched from the active sheet.
Then `if trim and cell.value is not None: return cell.value.strip()` —
`.strip()` exists only on strings, so a non-textual non-`None` value raises
`AttributeError` here. -/
def read_from_cell (sh : PySheet) (l : Option (List Char)) (co : Option PyValue)
    (trim : Bool) : Except PyErr PyValue := do
  let v ← match co with
    | some v => pure v
    | none =>
      match l with
      | none => Except.error .attributeError
      | some l' => do
        let rc ← _resolve_cell_coordinates l'
        sheetCell sh rc.1 rc.2
  if trim && !isNoneV v then
    match v with
    | .vStr t => pure (.vStr (pyStripWs t))
    | _ => .error .attributeError
  else
    pure v

/-- Python dict assignment `d[k] = v`: overwrite an existing binding in
place, or append a new one. -/
def dictInsert (d : List (PyValue × PyValue)) (k v : PyValue) :
    List (PyValue × PyValue) :=
  if d.any (fun e => e.1 = k) then
    d.map (fun e => if e.1 = k then (k, v) else e)
  else d ++ [(k, v)]

/-- The row dictionary the named-mode loop builds for one row when no read
fails: cell `i` goes in under key `column_names[i]` (the `.vNone` default of
`getD` is never reached when the name list is long enough for the row). -/
def rowDict (ns : List PyValue) : List PyValue → Nat →
    List (PyValue × PyValue) → List (PyValue × PyValue)
  | [], _, acc => acc
  | v :: vs, i, acc =>
    rowDict ns vs (i + 1) (dictInsert acc (ns.getD i .vNone) v)

/-- The collaborator's `sheet.iter_rows(min_col, min_row, max_col, max_row)`:
the values of the requested rectangle, padded with `None` outside the
stored grid. -/
def rangeRows (sh : PySheet) (mc mr xc xr : Nat) : List (List PyValue) :=
  (List.range' mr (xr + 1 - mr)).map (fun r =>
    (List.range' mc (xc + 1 - mc)).map (fun c =>
      (sh.rows.getD (r - 1) []).getD (c - 1) .vNone))

/-- Embeds `_get_column_names_from_header_row` (lines 332-339): the values of
`sheet[1]`, i.e. the sheet's absolute first row in full. -/
def _get_column_names_from_header_row (sh : PySheet) : List PyValue :=
  sh.rows.getD 0 []

/-- The two output shapes of `read_sheet_data`: a list of dictionaries when
column names are in effect, else a list of lists. -/
inductive SheetData where
  | named (rows : List (List (PyValue × PyValue)))
  | positional (rows : List (List PyValue))
  deriving DecidableEq

/-- One row of the named-mode loop (lines 677-684): for the `i`-th cell,
Python evaluates `self.read_from_cell(None, cell_obj=cell, trim=trim)`
first, then the assignment target's key `column_names[i]`, translating the
`IndexError` of a too-short name list into
`TooFewColumnNamesSuppliedException`. -/
def buildRowDict (sh : PySheet) (ns : List PyValue) (trim : Bool) :
    List PyValue → Nat → List (PyValue × PyValue) →
    Except PyErr (List (PyValue × PyValue))
  | [], _, acc => .ok acc
  | v :: vs, i, acc => do
    let x ← read_from_cell sh none (some v) trim
    match ns.get? i with
    | none => .error .tooFewColumnNames
    | some k => buildRowDict sh ns trim vs (i + 1) (dictInsert acc k x)

/-- The list comprehension of the positional mode (lines 691-694): read each
cell of the row left to right, propagating the first error. -/
def mapCells (sh : PySheet) (trim : Bool) : List PyValue →
    Except PyErr (List PyValue)
  | [] => .ok []
  | v :: vs => do
    let x ← read_from_cell sh none (some v) trim
    let xs ← mapCells sh trim vs
    pure (x :: xs)

/-- The positional-mode loop of `read_sheet_data` (lines 688-696): read each
cell of the row, then keep the row unless every value is `None`. -/
def posLoop (sh : PySheet) (trim : Bool) :
    List (List PyValue) → List (List PyValue) →
    Except PyErr (List (List PyValue))
  | [], acc => .ok acc
  | row :: rest, acc => do
    let vs ← mapCells sh trim row
    if vs.all isNoneV then posLoop sh trim rest acc
    else posLoop sh trim rest (acc ++ [vs])

/-- Positional mode: loop over the rows starting from an empty `sheet_data`. -/
def posMode (sh : PySheet) (trim : Bool) (rows : List (List PyValue)) :
    Except PyErr SheetData := do
  let d ← posLoop sh trim rows []
  pure (.positional d)

/-- The named-mode loop of `read_sheet_data` (lines 675-687): build the row
dictionary, then keep it unless every *dictionary* value is `None`
(`row_data.itervalues()`). -/
def namedLoop (sh : PySheet) (ns : List PyValue) (trim : Bool) :
    List (List PyValue) → List (List (PyValue × PyValue)) →
    Except PyErr (List (List (PyValue × PyValue)))
  | [], acc => .ok acc
  | row :: rest, acc => do
    let rd ← buildRowDict sh ns trim row 0 []
    if (rd.map (fun e => e.2)).all isNoneV then namedLoop sh ns trim rest acc
    else namedLoop sh ns trim rest (acc ++ [rd])

/-- Named mode: loop over the rows starting from an empty `sheet_data`. -/
def namedMode (sh : PySheet) (ns : List PyValue) (trim : Bool)
    (rows : List (List PyValue)) : Except PyErr SheetData := do
  let d ← namedLoop sh ns trim rows []
  pure (.named d)

/-- Python truthiness of a `column_names` value: `None` and `[]` are falsy. -/
def truthyNames (o : Option (List PyValue)) : Bool :=
  match o with
  | none => false
  | some l => !l.isEmpty

/-- Embeds `read_sheet_data` (lines 583-698).  `cr` is the quadruple
`(min_col, min_row, max_col, max_row)` produced by the collaborator utility
`range_boundaries(cell_range)` when a range is supplied.  Header handling:
with `get_column_names_from_header_row` and falsy `column_names`, the names
come from the absolute first row via `_get_column_names_from_header_row`
and `skip_first_row` is set.  With a range, iteration is restricted to the
rectangle and a truthy name list is sliced to
`column_names[min_col-1:max_col]`.  `skip_first_row` then drops the first
iterated row (the first row *of the range* when one is given).  Finally a
truthy name list selects the named mode, else the positional mode. -/
def read_sheet_data (sh : PySheet) (column_names : Option (List PyValue))
    (hdr : Bool) (cr : Option (Nat × Nat × Nat × Nat)) (trim : Bool) :
    Except PyErr SheetData :=
  let hs : Bool × Option (List PyValue) :=
    if hdr then
      if truthyNames column_names then (false, column_names)
      else (true, some (_get_column_names_from_header_row sh))
    else (false, column_names)
  let rs : List (List PyValue) × Option (List PyValue) :=
    match cr with
    | some (mc, mr, xc, xr) =>
      (rangeRows sh mc mr xc xr,
       if truthyNames hs.2 then
         hs.2.map (fun l => (l.take xc).drop (mc - 1))
       else hs.2)
    | none => (sh.rows, hs.2)
  let it := if hs.1 then rs.1.drop 1 else rs.1
  match rs.2 with
  | some ns => if ns.isEmpty then posMode sh trim it else namedMode sh ns trim it
  | none => posMode sh trim it

/-- The spec's registry invariant: `active_workbook_alias`, when set, is a
key of the `workbooks` mapping. -/
def registryInvariant (s : RegistryState) : Prop :=
  ∀ a, s.active_workbook_alias = some a → (wbLookup s.workbooks a).isSome = true

/-- The column-letter buffer accumulated by the letter-branch scan: every
non-digit character of the prefix-stripped locator, in order. -/
def colBuffer (L : List Char) : List Char :=
  (dropPfx a1Pfx (pyStripWs L)).filter (fun c => !(pyIsDigit c))

/-- The row-digit buffer accumulated by the letter-branch scan: every digit
character of the prefix-stripped locator, in order. -/
def rowBuffer (L : List Char) : List Char :=
  (dropPfx a1Pfx (pyStripWs L)).filter pyIsDigit

/-- A coordinate-form locator `"c,r"` built from a column part `cs` and a
row part `rs`, with optional `coords:` prefix and optional surrounding
parentheses. -/
def mkCoordLocator (pre par : Bool) (cs rs : List Char) : List Char :=
  (if pre then coordsPfx else []) ++
    ((if par then ['('] else []) ++ (cs ++ (',' :: (rs ++
      (if par then [')'] else [])))))

/-- C1 (counterexample): open a single workbook under alias `a`, then close
it.  `close_workbook` removes the entry but — with no workbook remaining —
never touches `active_workbook_alias`, so the registry ends with
`active_workbook_alias = some "a"` over an empty `workbooks` mapping: the
invariant is violated and no "no active workbook" state is reached. -/
theorem close_last_keeps_dangling_active :
    open_workbook emptyRegistry "p" 7 (some "a") =
      .ok ⟨[("a", ⟨"p", 7⟩)], some "a", some 7⟩ ∧
    (close_workbook ⟨[("a", ⟨"p", 7⟩)], some "a", some 7⟩ (some "a")).1 =
      ⟨[], some "a", some 7⟩ ∧
    ¬ registryInvariant ⟨[], some "a", some 7⟩ :=
  ⟨by decide, by decide, fun h => absurd (h "a" rfl) (by decide)⟩

/-- C5: for an alias that is not a key of `workbooks`, `switch_workbook`
raises `UnknownWorkbookException` — never the `UnopenedWorkbookException`
its dead `except KeyError` handler would produce — and raises before any
assignment, so no state change accompanies the error. -/
theorem switch_workbook_unknown_alias (s : RegistryState) (a : String)
    (h : wbLookup s.workbooks a = none) :
    switch_workbook s a = .error (.unknownWorkbook a) ∧
    switch_workbook s a ≠ .error (.unopenedWorkbook a) := by
  unfold switch_workbook _set_new_active_workbook
  rw [h]
  exact ⟨rfl, by simp⟩

/-- C5 (witness): switching to `"x"` on the pristine registry. -/
theorem switch_workbook_unknown_alias_witness :
    switch_workbook emptyRegistry "x" = .error (.unknownWorkbook "x") ∧
    switch_workbook emptyRegistry "x" ≠ .error (.unopenedWorkbook "x") :=
  switch_workbook_unknown_alias emptyRegistry "x" (by decide)

theorem pyIntCore_error_eq {l : List Char} {e : PyErr}
    (h : pyIntCore l = .error e) : e = .valueError := by
  cases l with
  | nil =>
    simp only [pyIntCore, Except.error.injEq] at h
    exact h.symm
  | cons c cs =>
    simp only [pyIntCore] at h
    repeat' split at h
    all_goals simp_all

theorem pyInt_error_eq {s : List Char} {e : PyErr} (h : pyInt s = .error e) :
    e = .valueError := pyIntCore_error_eq h

theorem column_index_error_eq {s : List Char} {e : PyErr}
    (h : column_index_from_string s = .error e) : e = .valueError := by
  unfold column_index_from_string at h
  split at h <;> simp_all

/-- C6: representative locators with empty or non-numeric row/column
components — a letter-form locator with no digits, the empty locator, a
digits-only locator (empty column buffer), and a coordinate-form locator
with a non-integer part — all fail with the builtin `ValueError` raised by
`int()` / `column_index_from_string`; and no input whatsoever makes
`_resolve_cell_coordinates` raise `InvalidCellCoordinatesException`, which
the source defines and documents but never raises. -/
theorem resolver_raises_valueerror_never_invalidcell :
    _resolve_cell_coordinates ['A', 'B', 'C'] = .error .valueError ∧
    _resolve_cell_coordinates [] = .error .valueError ∧
    _resolve_cell_coordinates ['1', '2'] = .error .valueError ∧
    _resolve_cell_coordinates ['1', ',', 'x'] = .error .valueError ∧
    ∀ l, _resolve_cell_coordinates l ≠ .error .invalidCellCoordinates := by
  refine ⟨by decide, by decide, by decide, by decide, ?_⟩
  intro l
  simp only [_resolve_cell_coordinates]
  split
  · split
    · rename_i p0 p1 rest _
      cases h1 : pyInt (pyStripWs p1) with
      | error e =>
        simp only [bind, Except.bind, h1]
        have := pyInt_error_eq h1
        simp [this]
      | ok r =>
        cases h2 : pyInt (pyStripWs p0) with
        | error e =>
          simp only [bind, Except.bind, h1, h2]
          have := pyInt_error_eq h2
          simp [this]
        | ok c => simp [bind, Except.bind, h1, h2, pure, Except.pure]
    · simp
  · cases h1 : column_index_from_string
        ((dropPfx a1Pfx (pyStripWs l)).filter (fun c => !(pyIsDigit c))) with
    | error e =>
      simp only [bind, Except.bind, h1]
      have := column_index_error_eq h1
      simp [this]
    | ok c =>
      cases h2 : pyInt ((dropPfx a1Pfx (pyStripWs l)).filter pyIsDigit) with
      | error e =>
        simp only [bind, Except.bind, h1, h2]
        have := pyInt_error_eq h2
        simp [this]
      | ok r => simp [bind, Except.bind, h1, h2, pure, Except.pure]

/-- C7 (counterexample): cell `A1` stores the number `42`; `Read From Cell`
with `trim` set does not return it untouched — `cell.value.strip()` is an
`AttributeError` on a number. -/
theorem read_cell_trim_number_not_untouched :
    read_from_cell ⟨[[.vInt 42]]⟩ (some ['A', '1']) none true ≠ .ok (.vInt 42) ∧
    read_from_cell ⟨[[.vInt 42]]⟩ (some ['A', '1']) none true =
      .error .attributeError := by decide

/-- C7 (amended): with `trim` set, an absent (`None`) value passes through
untouched and a textual value is whitespace-stripped, but any other
non-absent value raises `AttributeError`, because the code calls `.strip()`
unconditionally on every non-`None` value; without `trim` every value passes
through untouched. -/
theorem read_cell_trim_semantics (sh : PySheet) (v : PyValue) :
    read_from_cell sh none (some .vNone) true = .ok .vNone ∧
    (∀ t, read_from_cell sh none (some (.vStr t)) true =
      .ok (.vStr (pyStripWs t))) ∧
    (∀ n, read_from_cell sh none (some (.vInt n)) true =
      .error .attributeError) ∧
    read_from_cell sh none (some v) false = .ok v :=
  ⟨rfl, fun _ => rfl, fun _ => rfl, rfl⟩

/-- C8 (counterexample): switching to an absent sheet surfaces the
collaborator's plain `KeyError` — `switch_sheet` has no `try`/`except`
translating it into `SheetNotFoundException` (unlike `remove_sheet`). -/
theorem switch_sheet_absent_raises_keyerror :
    switch_sheet ⟨["Data"], 0⟩ "Orders" = .error .keyError ∧
    switch_sheet ⟨["Data"], 0⟩ "Orders" ≠ .error (.sheetNotFound "Orders") := by
  decide

/-- C8 (amended): for an absent sheet name the collaborator's untranslated
`KeyError` propagates; for a present one the sheet's index becomes the
workbook's active-sheet index. -/
theorem switch_sheet_semantics (wb : PyWorkbook) (n : String) :
    (n ∉ wb.sheetnames → switch_sheet wb n = .error .keyError) ∧
    (n ∈ wb.sheetnames → switch_sheet wb n =
      .ok { wb with active := wb.sheetnames.findIdx (fun x => x = n) }) := by
  constructor <;> intro h <;> simp [switch_sheet, h]

/-- C8 (witness): switching to the one existing sheet. -/
theorem switch_sheet_semantics_witness :
    switch_sheet ⟨["Data"], 5⟩ "Data" = .ok ⟨["Data"], 0⟩ :=
  (switch_sheet_semantics ⟨["Data"], 5⟩ "Data").2 (by decide)

/-- C9 (counterexample): in named mode with the duplicated column-name list
`["k", "k"]`, the row `["x", None]` — whose first cell value is not absent —
is nevertheless dropped: the second dictionary assignment overwrites the
first, `row_data` becomes `{"k": None}`, and the all-`None` test on the
dictionary values discards the row. -/
theorem named_mode_drops_nonempty_row :
    read_sheet_data ⟨[[.vStr ['x'], .vNone]]⟩ (some [.vStr ['k'], .vStr ['k']])
        false none false = .ok (.named []) ∧
    ([PyValue.vStr ['x'], PyValue.vNone].all isNoneV) = false := by decide

theorem read_cell_obj_notrim (sh : PySheet) (v : PyValue) :
    read_from_cell sh none (some v) false = .ok v := rfl

theorem mapCells_notrim (sh : PySheet) (row : List PyValue) :
    mapCells sh false row = .ok row := by
  induction row with
  | nil => rfl
  | cons v vs ih =>
    simp [mapCells, read_cell_obj_notrim, ih, bind, Except.bind, pure,
      Except.pure]

theorem posLoop_notrim (sh : PySheet) (rows acc : List (List PyValue)) :
    posLoop sh false rows acc =
      .ok (acc ++ rows.filter (fun r => !r.all isNoneV)) := by
  induction rows generalizing acc with
  | nil => simp [posLoop]
  | cons row rest ih =>
    by_cases hr : row.all isNoneV = true <;>
      simp [posLoop, mapCells_notrim, bind, Except.bind, hr, ih,
        List.filter_cons]

theorem get?_eq_some_getD {ns : List PyValue} {i : Nat}
    (h : i < ns.length) : ns.get? i = some (ns.getD i .vNone) := by
  rw [List.get?_eq_getElem?, List.getElem?_eq_getElem h,
    List.getD_eq_getElem?_getD, List.getElem?_eq_getElem h]
  rfl

theorem buildRowDict_notrim (sh : PySheet) (ns : List PyValue) :
    ∀ (row : List PyValue) (i : Nat) (acc : List (PyValue × PyValue)),
    i + row.length ≤ ns.length →
    buildRowDict sh ns false row i acc = .ok (rowDict ns row i acc) := by
  intro row
  induction row with
  | nil => intro i acc _; rfl
  | cons v vs ih =>
    intro i acc hlen
    have hi : i < ns.length := by
      simp only [List.length_cons] at hlen
      omega
    have hrec := ih (i + 1) (dictInsert acc (ns.getD i .vNone) v) (by
      simp only [List.length_cons] at hlen
      omega)
    simp [List.getD_eq_getElem?_getD, List.getElem?_eq_getElem hi] at hrec
    simp [buildRowDict, read_cell_obj_notrim, get?_eq_some_getD hi,
      List.getElem?_eq_getElem hi, rowDict, bind, Except.bind, hrec]

theorem namedLoop_notrim (sh : PySheet) (ns : List PyValue)
    (rows : List (List PyValue)) :
    ∀ acc : List (List (PyValue × PyValue)),
    (∀ row ∈ rows, row.length ≤ ns.length) →
    namedLoop sh ns false rows acc =
      .ok (acc ++ (rows.map (fun row => rowDict ns row 0 [])).filter
        (fun rd => !(rd.map (fun e => e.2)).all isNoneV)) := by
  induction rows with
  | nil => intro acc _; simp [namedLoop]
  | cons row rest ih =>
    intro acc hlen
    have hrow : 0 + row.length ≤ ns.length := by
      simpa using hlen row (List.mem_cons_self _ _)
    have hb := buildRowDict_notrim sh ns row 0 [] hrow
    have ihA := ih acc (fun r hrm => hlen r (List.mem_cons_of_mem row hrm))
    have ihB := ih (acc ++ [rowDict ns row 0 []])
      (fun r hrm => hlen r (List.mem_cons_of_mem row hrm))
    by_cases hr : ((rowDict ns row 0 []).map (fun e => e.2)).all isNoneV
      = true <;>
      simp [namedLoop, hb, bind, Except.bind, hr, ihA, ihB, List.filter_cons]

theorem dictInsert_fresh {d : List (PyValue × PyValue)} {k v : PyValue}
    (h : ∀ e ∈ d, ¬ e.1 = k) : dictInsert d k v = d ++ [(k, v)] := by
  have hno : ¬ (d.any (fun e => decide (e.1 = k)) = true) := by
    intro hc
    rw [List.any_eq_true] at hc
    obtain ⟨e, he, hek⟩ := hc
    exact h e he (by simpa using hek)
  unfold dictInsert
  rw [if_neg hno]

theorem nodup_getD_ne {ns : List PyValue} (hnd : ns.Nodup) {i j : Nat}
    (hi : i < ns.length) (hj : j < ns.length) (hij : ¬ i = j) :
    ¬ ns.getD i .vNone = ns.getD j .vNone := by
  intro he
  rw [List.getD_eq_getElem?_getD, List.getElem?_eq_getElem hi,
    List.getD_eq_getElem?_getD, List.getElem?_eq_getElem hj] at he
  simp at he
  exact hij ((List.Nodup.getElem_inj_iff hnd).mp he)

theorem rowDict_values {ns : List PyValue} (hnd : ns.Nodup) :
    ∀ (row : List PyValue) (i : Nat) (acc : List (PyValue × PyValue)),
    i + row.length ≤ ns.length →
    (∀ e ∈ acc, ∀ j, i ≤ j → j < ns.length → ¬ e.1 = ns.getD j .vNone) →
    (rowDict ns row i acc).map (fun e => e.2) =
      acc.map (fun e => e.2) ++ row := by
  intro row
  induction row with
  | nil =>
    intro i acc _ _
    simp [rowDict]
  | cons v vs ih =>
    intro i acc hlen hfresh
    have hi : i < ns.length := by
      simp only [List.length_cons] at hlen
      omega
    have hkey : ∀ e ∈ acc, ¬ e.1 = ns.getD i .vNone :=
      fun e he => hfresh e he i (Nat.le_refl i) hi
    have hfr : ∀ e ∈ acc ++ [(ns.getD i .vNone, v)], ∀ j, i + 1 ≤ j →
        j < ns.length → ¬ e.1 = ns.getD j .vNone := by
      intro e he j hij hjlen
      rcases List.mem_append.mp he with h1 | h1
      · exact hfresh e h1 j (by omega) hjlen
      · rw [List.mem_singleton] at h1
        rw [h1]
        show ¬ ns.getD i .vNone = ns.getD j .vNone
        exact nodup_getD_ne hnd hi hjlen (by omega)
    have hlen' : (i + 1) + vs.length ≤ ns.length := by
      simp only [List.length_cons] at hlen
      omega
    simp only [rowDict]
    rw [dictInsert_fresh hkey, ih (i + 1) (acc ++ [(ns.getD i .vNone, v)])
      hlen' hfr]
    simp

theorem read_sheet_named_notrim (sh : PySheet) (ns : List PyValue)
    (hne : ns ≠ []) (hlen : ∀ row ∈ sh.rows, row.length ≤ ns.length) :
    read_sheet_data sh (some ns) false none false =
      .ok (.named ((sh.rows.map (fun row => rowDict ns row 0 [])).filter
        (fun rd => !(rd.map (fun e => e.2)).all isNoneV))) := by
  have hES : ns.isEmpty = false := by
    cases ns with
    | nil => exact absurd rfl hne
    | cons a l => rfl
  simp [read_sheet_data, truthyNames, hES, namedMode,
    namedLoop_notrim sh ns sh.rows [] hlen, bind, Except.bind, pure,
    Except.pure]

theorem read_sheet_named_notrim_distinct (sh : PySheet) (ns : List PyValue)
    (hne : ns ≠ []) (hlen : ∀ row ∈ sh.rows, row.length ≤ ns.length)
    (hnd : ns.Nodup) :
    read_sheet_data sh (some ns) false none false =
      .ok (.named ((sh.rows.filter (fun r => !r.all isNoneV)).map
        (fun row => rowDict ns row 0 []))) := by
  have hpt : ∀ row ∈ sh.rows,
      ((fun rd => !(rd.map (fun e => e.2)).all isNoneV) ∘
        (fun row => rowDict ns row 0 [])) row =
      (fun r => !r.all isNoneV) row := by
    intro row hrow
    have h0 : 0 + row.length ≤ ns.length := by
      simpa using hlen row hrow
    have hfr : ∀ e ∈ ([] : List (PyValue × PyValue)), ∀ j, 0 ≤ j →
        j < ns.length → ¬ e.1 = ns.getD j .vNone := by
      intro e he
      simp at he
    have hv := rowDict_values hnd row 0 [] h0 hfr
    simp only [Function.comp]
    rw [hv]
    simp
  rw [read_sheet_named_notrim sh ns hne hlen, List.filter_map,
    List.filter_congr hpt]

/-- C9 (amended): a row is omitted exactly when every value of the row
record it produces is `None`.  Without trimming: in positional mode the
record is the row itself, so the retained rows are precisely those with at
least one non-`None` cell, in sheet order (the spec's example keeps exactly
2 of its 3 rows); in named mode the same all-`None` test runs on the values
of the row dictionary, and when the column names are distinct (and number
at least each row's cells) those values are exactly the row's cell values,
so the test coincides with the cell-value test.  Duplicate column names
collapse dictionary entries, making the two tests differ (see the
counterexample). -/
theorem rows_dropped_iff_all_empty (sh : PySheet) :
    (read_sheet_data sh none false none false =
      .ok (.positional (sh.rows.filter (fun r => !r.all isNoneV)))) ∧
    (∀ ns, ns ≠ [] → (∀ row ∈ sh.rows, row.length ≤ ns.length) →
      read_sheet_data sh (some ns) false none false =
        .ok (.named ((sh.rows.map (fun row => rowDict ns row 0 [])).filter
          (fun rd => !(rd.map (fun e => e.2)).all isNoneV)))) ∧
    (∀ ns, ns ≠ [] → (∀ row ∈ sh.rows, row.length ≤ ns.length) →
      ns.Nodup →
      read_sheet_data sh (some ns) false none false =
        .ok (.named ((sh.rows.filter (fun r => !r.all isNoneV)).map
          (fun row => rowDict ns row 0 [])))) ∧
    read_sheet_data ⟨[[.vStr ['a'], .vStr ['b']], [.vNone, .vNone],
        [.vStr ['c'], .vNone]]⟩ none false none false =
      .ok (.positional [[.vStr ['a'], .vStr ['b']], [.vStr ['c'], .vNone]]) := by
  refine ⟨?_, ?_, ?_, by decide⟩
  · simp [read_sheet_data, truthyNames, posMode, posLoop_notrim, bind,
      Except.bind, pure, Except.pure]
  · intro ns hne hlen
    exact read_sheet_named_notrim sh ns hne hlen
  · intro ns hne hlen hnd
    exact read_sheet_named_notrim_distinct sh ns hne hlen hnd

/-- C9 (witness): distinct names `k`, `l` over the rows `["x", None]` and
`[None, None]`: the all-`None` row is dropped and the other becomes the
record with `k` bound to `"x"` and `l` bound to `None`. -/
theorem rows_dropped_iff_all_empty_witness :
    read_sheet_data ⟨[[.vStr ['x'], .vNone], [.vNone, .vNone]]⟩
        (some [.vStr ['k'], .vStr ['l']]) false none false =
      .ok (.named [[(.vStr ['k'], .vStr ['x']), (.vStr ['l'], .vNone)]]) :=
  (rows_dropped_iff_all_empty ⟨[[.vStr ['x'], .vNone],
    [.vNone, .vNone]]⟩).2.2.1 [.vStr ['k'], .vStr ['l']]
    (by decide) (by decide) (by decide)

/-- C10: with `get_column_names_from_header_row` set and a `cell_range`
supplied, the column names always come from the sheet's absolute first row
(`sheet[1]`, then sliced as `column_names[min_col-1:max_col]`), while the
row excluded from the data is the first row *of the range*
(`next(row_iterator)` on the ranged iterator) — these coincide only when the
range starts at row 1. -/
theorem header_names_from_absolute_first_row (sh : PySheet)
    (mc mr xc xr : Nat) (trim : Bool)
    (h : ((_get_column_names_from_header_row sh).take xc).drop (mc - 1) ≠ []) :
    read_sheet_data sh none true (some (mc, mr, xc, xr)) trim =
      namedMode sh
        (((_get_column_names_from_header_row sh).take xc).drop (mc - 1))
        trim ((rangeRows sh mc mr xc xr).drop 1) := by
  have hH : (_get_column_names_from_header_row sh).isEmpty = false := by
    cases hh : _get_column_names_from_header_row sh with
    | nil => rw [hh] at h; simp at h
    | cons a l => rfl
  have hS : (((_get_column_names_from_header_row sh).take xc).drop
      (mc - 1)).isEmpty = false := by
    cases hs : ((_get_column_names_from_header_row sh).take xc).drop (mc - 1) with
    | nil => exact absurd hs h
    | cons a l => rfl
  simp [read_sheet_data, truthyNames, hH, hS]

/-- C10 (witness): a 3-row, 2-column sheet read over the range `A2:B3`
(boundaries `(1, 2, 2, 3)`): the names are the absolute first row and the
excluded row is row 2, the first row of the range. -/
theorem header_names_from_absolute_first_row_witness :
    read_sheet_data ⟨[[.vStr ['h'], .vStr ['i']], [.vInt 1, .vInt 2],
        [.vInt 3, .vInt 4]]⟩ none true (some (1, 2, 2, 3)) false =
      namedMode ⟨[[.vStr ['h'], .vStr ['i']], [.vInt 1, .vInt 2],
        [.vInt 3, .vInt 4]]⟩ [.vStr ['h'], .vStr ['i']] false
        [[.vInt 3, .vInt 4]] :=
  header_names_from_absolute_first_row
    ⟨[[.vStr ['h'], .vStr ['i']], [.vInt 1, .vInt 2], [.vInt 3, .vInt 4]]⟩
    1 2 2 3 false (by decide)

/-- C4: `_add_to_workbooks` (hence `Open workbook` and `Create workbook`)
fails with `AliasAlreadyInUseException` whenever the supplied or
path-defaulted alias is already a key of `workbooks`, and — when the alias
is fresh — fails with `FileAlreadyOpenedException` reporting the existing
alias whenever some entry already holds the same absolute path.  In both
cases the exception is raised before the dictionary insertion and the
active-workbook assignment, so no handle is registered and the registry
state is unchanged (the embedding returns an error and no new state). -/
theorem open_alias_and_path_collisions (s : RegistryState) (p : String)
    (wb : Nat) (al : Option String) :
    ((wbLookup s.workbooks (resolvedAlias p al)).isSome = true →
      open_workbook s p wb al =
        .error (.aliasAlreadyInUse (resolvedAlias p al))) ∧
    ((wbLookup s.workbooks (resolvedAlias p al)).isSome = false →
      ∀ b, _get_alias_of_workbook_by_file_path s p = some b →
        open_workbook s p wb al = .error (.fileAlreadyOpened p (some b))) := by
  constructor
  · intro h
    simp [open_workbook, _add_to_workbooks, h]
  · intro h b hb
    have hany : s.workbooks.any (fun e => e.2.file_path = p) = true := by
      unfold _get_alias_of_workbook_by_file_path at hb
      cases hf : s.workbooks.find? (fun e => decide (e.2.file_path = p)) with
      | none => rw [hf] at hb; simp at hb
      | some x =>
        have hx := List.find?_some hf
        have hm := List.mem_of_find?_eq_some hf
        exact List.any_eq_true.2 ⟨x, hm, hx⟩
    simp [open_workbook, _add_to_workbooks, h, hany, hb]

/-- C4 (witness): with `wb.xlsx` open under alias `a`, reopening any path
under alias `a` hits the alias collision. -/
theorem open_alias_and_path_collisions_witness :
    open_workbook ⟨[("a", ⟨"q", 0⟩)], some "a", some 0⟩ "q2" 1 (some "a") =
      .error (.aliasAlreadyInUse "a") :=
  (open_alias_and_path_collisions ⟨[("a", ⟨"q", 0⟩)], some "a", some 0⟩
    "q2" 1 (some "a")).1 (by decide)

theorem set_active_ok {s s' : RegistryState} {a : String}
    (h : _set_new_active_workbook s a = .ok s') :
    s'.workbooks = s.workbooks ∧ s'.active_workbook_alias = some a ∧
      (wbLookup s.workbooks a).isSome = true := by
  unfold _set_new_active_workbook at h
  split at h
  · simp at h
  · rename_i e heq
    simp only [Except.ok.injEq] at h
    subst h
    exact ⟨rfl, rfl, by rw [heq]; rfl⟩

theorem add_ok_invariant {s : RegistryState} {p : String} {wb : Nat}
    {al : Option String} {s' : RegistryState}
    (h : _add_to_workbooks s p wb al = .ok s') : registryInvariant s' := by
  simp only [_add_to_workbooks] at h
  split at h
  · simp at h
  · split at h
    · simp at h
    · obtain ⟨hw, ha, hk⟩ := set_active_ok h
      intro b hb
      rw [ha, Option.some.injEq] at hb
      subst hb
      rw [hw]
      exact hk

theorem switch_ok_invariant {s : RegistryState} {a : String}
    {s' : RegistryState} (h : switch_workbook s a = .ok s') :
    registryInvariant s' := by
  unfold switch_workbook at h
  cases he : _set_new_active_workbook s a with
  | error e => rw [he] at h; cases e <;> simp_all
  | ok t =>
    rw [he] at h
    simp only [Except.ok.injEq] at h
    subst h
    obtain ⟨hw, ha, hk⟩ := set_active_ok he
    intro b hb
    rw [ha, Option.some.injEq] at hb
    subst hb
    rw [hw]
    exact hk

theorem wbLookup_filter_ne {w : List (String × Entry)} {a x : String}
    (h : ¬ x = a) :
    wbLookup (w.filter (fun e => !decide (e.1 = a))) x = wbLookup w x := by
  induction w with
  | nil => rfl
  | cons e es ih =>
    by_cases he : e.1 = a
    · have hax : ¬ a = x := fun q => h q.symm
      simpa [wbLookup, List.filter_cons, he, hax, List.find?_cons] using ih
    · by_cases hx : e.1 = x
      · simp [wbLookup, List.filter_cons, he, hx, h, List.find?_cons]
      · simpa [wbLookup, List.filter_cons, he, hx, h, List.find?_cons] using ih

theorem closeRemove_invariant (s : RegistryState) (a : String)
    (hinv : registryInvariant s)
    (hne : (closeRemove s a).workbooks ≠ []) :
    registryInvariant (closeRemove s a) := by
  unfold closeRemove at hne ⊢
  by_cases hc : some a = s.active_workbook_alias ∧
      s.workbooks.filter (fun e => !decide (e.1 = a)) ≠ []
  · rw [if_pos hc] at hne ⊢
    cases hw : s.workbooks.filter (fun e => !decide (e.1 = a)) with
    | nil => exact absurd hw hc.2
    | cons be t =>
      obtain ⟨b, e⟩ := be
      intro x hx
      replace hx : some b = some x := hx
      rw [Option.some.injEq] at hx
      subst hx
      show (wbLookup ((b, e) :: t) b).isSome = true
      simp [wbLookup, List.find?_cons]
  · rw [if_neg hc] at hne ⊢
    by_cases hA : some a = s.active_workbook_alias
    · have hB : s.workbooks.filter (fun e => !decide (e.1 = a)) = [] := by
        by_contra hB
        exact hc ⟨hA, hB⟩
      have hne' : s.workbooks.filter (fun e => !decide (e.1 = a)) ≠ [] := hne
      exact absurd hB hne'
    · intro x hx
      simp only at hx
      have hxa : ¬ x = a := by
        intro hxe
        subst hxe
        exact hA hx.symm
      show (wbLookup (s.workbooks.filter (fun e => !decide (e.1 = a)))
        x).isSome = true
      rw [wbLookup_filter_ne hxa]
      exact hinv x hx

theorem close_preserves_invariant (s : RegistryState) (al : Option String)
    (hinv : registryInvariant s)
    (hne : (close_workbook s al).1.workbooks ≠ []) :
    registryInvariant (close_workbook s al).1 := by
  unfold close_workbook at hne ⊢
  cases ha : closeAlias s al with
  | none => exact hinv
  | some a =>
    rw [ha] at hne
    replace hne : (close_known s a).1.workbooks ≠ [] := hne
    show registryInvariant (close_known s a).1
    unfold close_known at hne ⊢
    cases he : wbLookup s.workbooks a with
    | none => exact hinv
    | some e0 =>
      rw [he] at hne
      exact closeRemove_invariant s a hinv hne

theorem closeRemove_elects (s : RegistryState) (a : String)
    (hsn : some a = s.active_workbook_alias)
    (hne : (closeRemove s a).workbooks ≠ []) :
    ∃ b, (closeRemove s a).active_workbook_alias = some b ∧
      (wbLookup (closeRemove s a).workbooks b).isSome = true ∧ ¬ b = a := by
  unfold closeRemove at hne ⊢
  by_cases hc : some a = s.active_workbook_alias ∧
      s.workbooks.filter (fun e => !decide (e.1 = a)) ≠ []
  · rw [if_pos hc] at hne ⊢
    cases hw : s.workbooks.filter (fun e => !decide (e.1 = a)) with
    | nil => exact absurd hw hc.2
    | cons be t =>
      obtain ⟨b, e⟩ := be
      refine ⟨b, rfl, ?_, ?_⟩
      · show (wbLookup ((b, e) :: t) b).isSome = true
        simp [wbLookup, List.find?_cons]
      · have hmem : (b, e) ∈ s.workbooks.filter (fun q => !decide (q.1 = a)) := by
          rw [hw]
          exact List.mem_cons_self _ _
        have hq := List.of_mem_filter hmem
        simp at hq
        exact hq
  · rw [if_neg hc] at hne
    by_cases hB : s.workbooks.filter (fun e => !decide (e.1 = a)) = []
    · exact absurd hB hne
    · exact absurd ⟨hsn, hB⟩ hc

theorem close_active_elects (s : RegistryState) (al : Option String)
    (a : String) (ha : closeAlias s al = some a)
    (hk : (wbLookup s.workbooks a).isSome = true)
    (hact : some a = s.active_workbook_alias)
    (hne : (close_workbook s al).1.workbooks ≠ []) :
    ∃ b, (close_workbook s al).1.active_workbook_alias = some b ∧
      (wbLookup (close_workbook s al).1.workbooks b).isSome = true ∧
      ¬ b = a := by
  unfold close_workbook at hne ⊢
  rw [ha] at hne ⊢
  replace hne : (close_known s a).1.workbooks ≠ [] := hne
  show ∃ b, (close_known s a).1.active_workbook_alias = some b ∧
    (wbLookup (close_known s a).1.workbooks b).isSome = true ∧ ¬ b = a
  unfold close_known at hne ⊢
  cases he : wbLookup s.workbooks a with
  | none => rw [he] at hk; simp at hk
  | some e0 =>
    rw [he] at hne
    exact closeRemove_elects s a hact hne

theorem filter_eq_self_of_lookup_none {w : List (String × Entry)}
    {a : String} (h : wbLookup w a = none) :
    w.filter (fun e => !decide (e.1 = a)) = w := by
  rw [List.filter_eq_self]
  intro e he
  have hf : w.find? (fun e => decide (e.1 = a)) = none := by
    cases hx : w.find? (fun e => decide (e.1 = a)) with
    | none => rfl
    | some y => unfold wbLookup at h; rw [hx] at h; simp at h
  have hq := List.find?_eq_none.mp hf e he
  simp at hq ⊢
  exact hq

theorem closeRemove_workbooks (st : RegistryState) (k : String) :
    (closeRemove st k).workbooks =
      st.workbooks.filter (fun e => !decide (e.1 = k)) := by
  unfold closeRemove
  by_cases hc : some k = st.active_workbook_alias ∧
      st.workbooks.filter (fun e => !decide (e.1 = k)) ≠ []
  · rw [if_pos hc]
    cases hw : st.workbooks.filter (fun e => !decide (e.1 = k)) with
    | nil => rfl
    | cons be t => obtain ⟨b, e⟩ := be; rfl
  · rw [if_neg hc]

theorem close_known_workbooks (st : RegistryState) (k : String) :
    (close_known st k).1.workbooks =
      st.workbooks.filter (fun e => !decide (e.1 = k)) := by
  unfold close_known
  cases he : wbLookup st.workbooks k with
  | none => exact (filter_eq_self_of_lookup_none he).symm
  | some e0 => exact closeRemove_workbooks st k

theorem close_workbook_some_workbooks (st : RegistryState) (k : String)
    (hk : ¬ k = "") :
    (close_workbook st (some k)).1.workbooks =
      st.workbooks.filter (fun e => !decide (e.1 = k)) := by
  have ha : closeAlias st (some k) = some k := by
    show (if k = "" then st.active_workbook_alias else some k) = some k
    rw [if_neg hk]
  unfold close_workbook
  rw [ha]
  exact close_known_workbooks st k

theorem close_workbook_active_ne_none (st : RegistryState)
    (al : Option String) (h : st.active_workbook_alias ≠ none) :
    (close_workbook st al).1.active_workbook_alias ≠ none := by
  unfold close_workbook
  cases ha : closeAlias st al with
  | none => exact h
  | some a =>
    show (close_known st a).1.active_workbook_alias ≠ none
    unfold close_known
    cases he : wbLookup st.workbooks a with
    | none => exact h
    | some e0 =>
      show (closeRemove st a).active_workbook_alias ≠ none
      unfold closeRemove
      by_cases hc : some a = st.active_workbook_alias ∧
          st.workbooks.filter (fun e => !decide (e.1 = a)) ≠ []
      · rw [if_pos hc]
        cases hw : st.workbooks.filter (fun e => !decide (e.1 = a)) with
        | nil => exact h
        | cons be t => obtain ⟨b, e⟩ := be; simp
      · rw [if_neg hc]
        exact h

theorem close_fold_workbooks (ks : List String) :
    ∀ st : RegistryState, (∀ k ∈ ks, ¬ k = "") →
    (ks.foldl (fun st a => (close_workbook st (some a)).1) st).workbooks =
      st.workbooks.filter (fun e => !decide (e.1 ∈ ks)) := by
  induction ks with
  | nil =>
    intro st _
    simp
  | cons k ks ih =>
    intro st hks
    rw [List.foldl_cons]
    rw [ih ((close_workbook st (some k)).1)
      (fun x hx => hks x (List.mem_cons_of_mem k hx))]
    rw [close_workbook_some_workbooks st k (hks k (List.mem_cons_self k ks))]
    rw [List.filter_filter]
    apply List.filter_congr
    intro e _
    by_cases h1 : e.1 = k <;> by_cases h2 : e.1 ∈ ks <;>
      simp [h1, h2, List.mem_cons]

theorem close_fold_active (ks : List String) :
    ∀ st : RegistryState, st.active_workbook_alias ≠ none →
    (ks.foldl (fun st a =>
      (close_workbook st (some a)).1) st).active_workbook_alias ≠ none := by
  induction ks with
  | nil => exact fun _ h => h
  | cons k ks ih =>
    intro st h
    rw [List.foldl_cons]
    exact ih _ (close_workbook_active_ne_none st (some k) h)

theorem close_all_dangling (s : RegistryState)
    (hkeys : ∀ e ∈ s.workbooks, ¬ e.1 = "")
    (hact : s.active_workbook_alias ≠ none) :
    (close_all_workbooks s).workbooks = [] ∧
      (close_all_workbooks s).active_workbook_alias ≠ none := by
  unfold close_all_workbooks
  constructor
  · rw [close_fold_workbooks (s.workbooks.map (fun e => e.1)) s ?keys]
    case keys =>
      intro k hk
      obtain ⟨e, he, rfl⟩ := List.mem_map.mp hk
      exact hkeys e he
    rw [List.filter_eq_nil_iff]
    intro e he
    have hm : e.1 ∈ s.workbooks.map (fun e => e.1) :=
      List.mem_map.mpr ⟨e, he, rfl⟩
    simp [hm]
  · exact close_fold_active (s.workbooks.map (fun e => e.1)) s hact

/-- C1 (amended): `Open`/`Create` (via `_add_to_workbooks`) and
`SwitchWorkbook` establish the invariant that the active alias is a key of
`workbooks`; `Close` preserves it whenever at least one workbook remains
afterwards, and closing the workbook whose alias is the active one while
others remain elects one remaining, different workbook as active.  But
closing the *last* workbook leaves `active_workbook_alias` pointing at the
removed alias rather than unsetting it (see the counterexample), so
`CloseAll` on any registry with an active workbook (and, as `Open`/`Create`
guarantee, no empty-string alias) empties the mapping yet still leaves an
active alias recorded — necessarily dangling. -/
theorem registry_operations_invariant :
    (∀ s p wb al s', _add_to_workbooks s p wb al = .ok s' →
      registryInvariant s') ∧
    (∀ s a s', switch_workbook s a = .ok s' → registryInvariant s') ∧
    (∀ s al, registryInvariant s → (close_workbook s al).1.workbooks ≠ [] →
      registryInvariant (close_workbook s al).1) ∧
    (∀ s al a, closeAlias s al = some a →
      (wbLookup s.workbooks a).isSome = true →
      some a = s.active_workbook_alias →
      (close_workbook s al).1.workbooks ≠ [] →
      ∃ b, (close_workbook s al).1.active_workbook_alias = some b ∧
        (wbLookup (close_workbook s al).1.workbooks b).isSome = true ∧
        ¬ b = a) ∧
    (∀ s, (∀ e ∈ s.workbooks, ¬ e.1 = "") →
      s.active_workbook_alias ≠ none →
      (close_all_workbooks s).workbooks = [] ∧
        (close_all_workbooks s).active_workbook_alias ≠ none) :=
  ⟨fun _ _ _ _ _ h => add_ok_invariant h,
   fun _ _ _ h => switch_ok_invariant h,
   fun s al h1 h2 => close_preserves_invariant s al h1 h2,
   fun s al a h1 h2 h3 h4 => close_active_elects s al a h1 h2 h3 h4,
   fun s h1 h2 => close_all_dangling s h1 h2⟩

/-- C1 (witness): opening a workbook on the pristine registry yields a state
satisfying the invariant. -/
theorem registry_operations_invariant_witness :
    registryInvariant ⟨[("a", ⟨"p", 7⟩)], some "a", some 7⟩ :=
  registry_operations_invariant.1 emptyRegistry "p" 7 (some "a")
    ⟨[("a", ⟨"p", 7⟩)], some "a", some 7⟩ (by decide)

theorem dropWhile_eq_self {p : Char → Bool} {l : List Char}
    (h : ∀ c ∈ l, p c = false) : l.dropWhile p = l := by
  cases l with
  | nil => rfl
  | cons c cs =>
    rw [List.dropWhile_cons, if_neg]
    simp [h c (List.mem_cons_self c cs)]

theorem pyStripWs_eq_self {l : List Char}
    (h : ∀ c ∈ l, pyIsSpace c = false) : pyStripWs l = l := by
  unfold pyStripWs
  rw [dropWhile_eq_self h,
    dropWhile_eq_self (fun c hc => h c (List.mem_reverse.mp hc)),
    List.reverse_reverse]

theorem pyIsDigit_not_space {c : Char} (h : pyIsDigit c = true) :
    pyIsSpace c = false := by
  by_contra hs
  rw [Bool.not_eq_false] at hs
  unfold pyIsSpace at hs
  simp only [Bool.or_eq_true, decide_eq_true_eq] at hs
  rcases hs with ((((rfl | rfl) | rfl) | rfl) | rfl) | rfl <;>
    exact absurd h (by decide)

theorem pyIsDigit_ne {c t : Char} (h : pyIsDigit c = true)
    (ht : pyIsDigit t = false) : ¬ c = t := by
  rintro rfl
  simp [h] at ht

theorem mem_of_mem_dropWhile {p : Char → Bool} {c : Char} :
    ∀ {l : List Char}, c ∈ l.dropWhile p → c ∈ l := by
  intro l
  induction l with
  | nil => exact fun h => h
  | cons d ds ih =>
    intro h
    rw [List.dropWhile_cons] at h
    split at h
    · exact List.mem_cons_of_mem d (ih h)
    · exact h

theorem mem_of_mem_pyStripWs {c : Char} {l : List Char}
    (h : c ∈ pyStripWs l) : c ∈ l := by
  unfold pyStripWs at h
  rw [List.mem_reverse] at h
  have h1 := mem_of_mem_dropWhile h
  rw [List.mem_reverse] at h1
  exact mem_of_mem_dropWhile h1

theorem pyInt_digits {l : List Char} (h1 : l ≠ [])
    (h2 : ∀ c ∈ l, pyIsDigit c = true) :
    pyInt l = .ok ((digitsVal l : Nat) : Int) := by
  unfold pyInt
  rw [pyStripWs_eq_self (fun c hc => pyIsDigit_not_space (h2 c hc))]
  cases l with
  | nil => exact absurd rfl h1
  | cons c cs =>
    have hc := h2 c (List.mem_cons_self c cs)
    have hp : ¬ c = '+' := pyIsDigit_ne hc (by decide)
    have hm : ¬ c = '-' := pyIsDigit_ne hc (by decide)
    simp only [pyIntCore]
    rw [if_neg hp, if_neg hm, if_pos (List.all_eq_true.mpr h2)]

theorem resolve_letter_branch {L : List Char} (h : ',' ∉ L) :
    _resolve_cell_coordinates L =
      Except.bind (column_index_from_string (colBuffer L)) (fun c =>
        Except.bind (pyInt (rowBuffer L)) (fun r =>
          Except.ok (r, (c : Int)))) := by
  have h' : ',' ∉ pyStripWs L := fun hm => h (mem_of_mem_pyStripWs hm)
  simp only [_resolve_cell_coordinates, colBuffer, rowBuffer]
  rw [if_neg h']
  rfl

/-- C3: for every comma-free locator, the scan routes the digit characters
into the row buffer and all other characters into the column buffer
(`colBuffer`/`rowBuffer` are the two filters of the prefix-stripped
locator); whenever the column buffer uppercases to one to three letters
`A`..`Z` and the row buffer is nonempty, the result is the bijective
base-26 decoding of the column buffer paired (row first) with the decimal
value of the row buffer.  The result depends only on the two buffers — any
locator with the same character routing resolves identically — and in
particular `A1` and `1A` resolve to the same coordinates. -/
theorem letter_locator_scan (L : List Char) (h0 : ',' ∉ L)
    (h1 : colBuffer L ≠ []) (h2 : (colBuffer L).length ≤ 3)
    (h3 : ((colBuffer L).map Char.toUpper).all isUpperAZ = true)
    (h4 : rowBuffer L ≠ []) :
    _resolve_cell_coordinates L =
      .ok (((digitsVal (rowBuffer L) : Nat) : Int),
        ((bijBase26 ((colBuffer L).map Char.toUpper) : Nat) : Int)) ∧
    (∀ M, ',' ∉ M → colBuffer M = colBuffer L → rowBuffer M = rowBuffer L →
      _resolve_cell_coordinates M = _resolve_cell_coordinates L) ∧
    _resolve_cell_coordinates ['A', '1'] =
      _resolve_cell_coordinates ['1', 'A'] := by
  have hcol : column_index_from_string (colBuffer L) =
      .ok (bijBase26 ((colBuffer L).map Char.toUpper)) := by
    unfold column_index_from_string
    rw [if_pos]
    refine ⟨?_, ?_, h3⟩
    · rw [List.length_map]
      exact List.length_pos.mpr h1
    · rw [List.length_map]
      exact h2
  have hrow : pyInt (rowBuffer L) = .ok ((digitsVal (rowBuffer L) : Nat) : Int) :=
    pyInt_digits h4 (fun c hc => List.of_mem_filter hc)
  refine ⟨?_, ?_, by decide⟩
  · rw [resolve_letter_branch h0, hcol]
    simp only [Except.bind, hrow]
  · intro M hM hc hr
    rw [resolve_letter_branch hM, resolve_letter_branch h0, hc, hr]

/-- C3 (witness): the locator `1a` — digits and letters interleaved the
"wrong" way round, lowercase — resolves to row 1, column 1. -/
theorem letter_locator_scan_witness :
    _resolve_cell_coordinates ['1', 'a'] = .ok (1, 1) ∧
    (∀ M, ',' ∉ M → colBuffer M = colBuffer ['1', 'a'] →
      rowBuffer M = rowBuffer ['1', 'a'] →
      _resolve_cell_coordinates M = _resolve_cell_coordinates ['1', 'a']) ∧
    _resolve_cell_coordinates ['A', '1'] =
      _resolve_cell_coordinates ['1', 'A'] :=
  letter_locator_scan ['1', 'a'] (by decide) (by decide) (by decide)
    (by decide) (by decide)

theorem lstripChar_eq_self {t : Char} {l : List Char}
    (h : ∀ c ∈ l, ¬ c = t) : lstripChar t l = l :=
  dropWhile_eq_self (fun c hc => decide_eq_false (h c hc))

theorem lstripChar_cons_self {t : Char} {l : List Char} :
    lstripChar t (t :: l) = lstripChar t l := by
  unfold lstripChar
  rw [List.dropWhile_cons, if_pos (by simp)]

theorem rstripChar_eq_self {t : Char} {l : List Char}
    (h : ∀ c ∈ l, ¬ c = t) : rstripChar t l = l := by
  unfold rstripChar
  rw [dropWhile_eq_self
    (fun c hc => decide_eq_false (h c (List.mem_reverse.mp hc))),
    List.reverse_reverse]

theorem rstripChar_append_self {t : Char} {l : List Char} :
    rstripChar t (l ++ [t]) = rstripChar t l := by
  unfold rstripChar
  rw [List.reverse_append]
  simp [List.dropWhile_cons]

theorem pySplit_no_sep {sep : Char} {l : List Char}
    (h : ∀ c ∈ l, ¬ c = sep) : pySplit sep l = [l] := by
  induction l with
  | nil => rfl
  | cons c cs ih =>
    have hc : ¬ c = sep := h c (List.mem_cons_self c cs)
    have ih' := ih (fun x hx => h x (List.mem_cons_of_mem c hx))
    simp [pySplit, hc, ih']

theorem pySplit_append_sep {sep : Char} {l r : List Char}
    (h : ∀ c ∈ l, ¬ c = sep) :
    pySplit sep (l ++ sep :: r) = l :: pySplit sep r := by
  induction l with
  | nil => simp [pySplit]
  | cons c cs ih =>
    have hc : ¬ c = sep := h c (List.mem_cons_self c cs)
    have ih' := ih (fun x hx => h x (List.mem_cons_of_mem c hx))
    simp [pySplit, hc, ih']

theorem dropPfx_append {p l : List Char} : dropPfx p (p ++ l) = l := by
  unfold dropPfx
  rw [if_pos (List.isPrefixOf_iff_prefix.mpr (List.prefix_append p l)),
    List.drop_left]

theorem isPrefixOf_cons_false {a b : Char} {as bs : List Char}
    (h : ¬ a = b) : (a :: as).isPrefixOf (b :: bs) = false := by
  show (a == b && as.isPrefixOf bs) = false
  simp [h]

theorem dropWhile_cons_false {p : Char → Bool} {c : Char} {l : List Char}
    (h : p c = false) : (c :: l).dropWhile p = c :: l := by
  rw [List.dropWhile_cons, if_neg]
  simp [h]

theorem dropWhile_append_all {p : Char → Bool} {x y : List Char}
    (h : ∀ c ∈ x, p c = true) : (x ++ y).dropWhile p = y.dropWhile p := by
  induction x with
  | nil => rfl
  | cons a x' ih =>
    rw [List.cons_append, List.dropWhile_cons,
      if_pos (h a (List.mem_cons_self a x'))]
    exact ih (fun c hc => h c (List.mem_cons_of_mem a hc))

theorem pyIsSpace_ne {c t : Char} (h : pyIsSpace c = true)
    (ht : pyIsSpace t = false) : ¬ c = t := by
  rintro rfl
  simp [h] at ht

theorem pyStripWs_of_parts {x : List Char} {a b : Char}
    (ha : pyIsSpace a = false) (hb : pyIsSpace b = false) :
    pyStripWs (a :: (x ++ [b])) = a :: (x ++ [b]) := by
  unfold pyStripWs
  rw [dropWhile_cons_false ha]
  rw [show (a :: (x ++ [b])).reverse = b :: (x.reverse ++ [a]) by simp]
  rw [dropWhile_cons_false hb]
  simp

theorem pyStripWs_eq_self_of_ends {A m B : List Char} (hA : A ≠ [])
    (hAo : ∀ c ∈ A, pyIsSpace c = false) (hB : B ≠ [])
    (hBo : ∀ c ∈ B, pyIsSpace c = false) :
    pyStripWs (A ++ (m ++ B)) = A ++ (m ++ B) := by
  obtain ⟨a, A', rfl⟩ : ∃ a A', A = a :: A' := by
    cases A with
    | nil => exact absurd rfl hA
    | cons a A' => exact ⟨a, A', rfl⟩
  obtain ⟨B', b, rfl⟩ : ∃ B' b, B = B' ++ [b] := by
    rcases List.eq_nil_or_concat B with rfl | ⟨B', b, hBb⟩
    · exact absurd rfl hB
    · exact ⟨B', b, by rw [hBb, List.concat_eq_append]⟩
  have ha : pyIsSpace a = false := hAo a (List.mem_cons_self _ _)
  have hb : pyIsSpace b = false := hBo b (by simp)
  rw [show (a :: A') ++ (m ++ (B' ++ [b])) =
    a :: ((A' ++ (m ++ B')) ++ [b]) by simp]
  rw [pyStripWs_of_parts ha hb]

theorem pyStripWs_part_left {w p : List Char}
    (hp : ∀ c ∈ p, pyIsSpace c = false)
    (hw : ∀ c ∈ w, pyIsSpace c = true) :
    pyStripWs (w ++ p) = p := by
  unfold pyStripWs
  rw [dropWhile_append_all hw, dropWhile_eq_self hp,
    dropWhile_eq_self (fun c hc => hp c (List.mem_reverse.mp hc)),
    List.reverse_reverse]

theorem pyStripWs_part_right {p w : List Char} (hne : p ≠ [])
    (hp : ∀ c ∈ p, pyIsSpace c = false)
    (hw : ∀ c ∈ w, pyIsSpace c = true) :
    pyStripWs (p ++ w) = p := by
  obtain ⟨a, p', rfl⟩ : ∃ a p', p = a :: p' := by
    cases p with
    | nil => exact absurd rfl hne
    | cons a p' => exact ⟨a, p', rfl⟩
  unfold pyStripWs
  rw [List.cons_append, dropWhile_cons_false (hp a (List.mem_cons_self a p'))]
  rw [show (a :: (p' ++ w)).reverse = w.reverse ++ (p'.reverse ++ [a]) by simp]
  rw [dropWhile_append_all (fun c hc => hw c (List.mem_reverse.mp hc))]
  have hall : ∀ c ∈ p'.reverse ++ [a], pyIsSpace c = false := by
    intro c hc
    rcases List.mem_append.mp hc with h1 | h1
    · exact hp c (List.mem_cons_of_mem a (List.mem_reverse.mp h1))
    · simp at h1
      rw [h1]
      exact hp a (List.mem_cons_self a p')
  rw [dropWhile_eq_self hall]
  simp

theorem pyIntCore_ok_shape {p : List Char} {v : Int}
    (h : pyIntCore p = .ok v) :
    ∃ c cs, p = c :: cs ∧ (pyIsDigit c = true ∨ c = '+' ∨ c = '-') ∧
      ∀ x ∈ cs, pyIsDigit x = true := by
  cases p with
  | nil => simp [pyIntCore] at h
  | cons c cs =>
    simp only [pyIntCore] at h
    by_cases h1 : c = '+'
    · rw [if_pos h1] at h
      by_cases h2 : (!cs.isEmpty && cs.all pyIsDigit) = true
      · simp only [Bool.and_eq_true] at h2
        exact ⟨c, cs, rfl, Or.inr (Or.inl h1), List.all_eq_true.mp h2.2⟩
      · rw [if_neg h2] at h
        simp at h
    · rw [if_neg h1] at h
      by_cases h2 : c = '-'
      · rw [if_pos h2] at h
        by_cases h3 : (!cs.isEmpty && cs.all pyIsDigit) = true
        · simp only [Bool.and_eq_true] at h3
          exact ⟨c, cs, rfl, Or.inr (Or.inr h2), List.all_eq_true.mp h3.2⟩
        · rw [if_neg h3] at h
          simp at h
      · rw [if_neg h2] at h
        by_cases h3 : (c :: cs).all pyIsDigit = true
        · have hq := List.all_eq_true.mp h3
          exact ⟨c, cs, rfl, Or.inl (hq c (List.mem_cons_self c cs)),
            fun x hx => hq x (List.mem_cons_of_mem c hx)⟩
        · rw [if_neg h3] at h
          simp at h

theorem pyIntCore_ok_chars {p : List Char} {v : Int}
    (h : pyIntCore p = .ok v) :
    ∀ c ∈ p, pyIsSpace c = false ∧ ¬ c = ',' ∧ ¬ c = '(' ∧ ¬ c = ')' := by
  obtain ⟨c0, cs, rfl, hc0, hcs⟩ := pyIntCore_ok_shape h
  intro c hc
  rcases List.mem_cons.mp hc with rfl | hmem
  · rcases hc0 with hd | rfl | rfl
    · exact ⟨pyIsDigit_not_space hd, pyIsDigit_ne hd (by decide),
        pyIsDigit_ne hd (by decide), pyIsDigit_ne hd (by decide)⟩
    · exact ⟨by decide, by decide, by decide, by decide⟩
    · exact ⟨by decide, by decide, by decide, by decide⟩
  · have hd := hcs c hmem
    exact ⟨pyIsDigit_not_space hd, pyIsDigit_ne hd (by decide),
      pyIsDigit_ne hd (by decide), pyIsDigit_ne hd (by decide)⟩

theorem coordPipeline (parL parR A B : List Char)
    (hL : parL = [] ∨ parL = ['('])
    (hR : parR = [] ∨ parR = [')'])
    (hA : ∀ c ∈ A, ¬ c = ',' ∧ ¬ c = '(' ∧ ¬ c = ')')
    (hB : ∀ c ∈ B, ¬ c = ',' ∧ ¬ c = '(' ∧ ¬ c = ')') :
    pySplit ',' (rstripChar ')' (lstripChar '(' (rstripChar ')'
      (lstripChar '(' (parL ++ (A ++ (',' :: (B ++ parR)))))))) =
      [A, B] := by
  have hTail : ∀ c ∈ A ++ (',' :: (B ++ parR)), ¬ c = '(' := by
    intro c hcm
    simp only [List.mem_append, List.mem_cons] at hcm
    rcases hcm with hC | rfl | hE | hF
    · exact (hA c hC).2.1
    · decide
    · exact (hB c hE).2.1
    · rcases hR with rfl | rfl
      · simp at hF
      · simp at hF
        subst hF
        decide
  have h1 : lstripChar '(' (parL ++ (A ++ (',' :: (B ++ parR)))) =
      A ++ (',' :: (B ++ parR)) := by
    rcases hL with rfl | rfl
    · rw [List.nil_append]
      exact lstripChar_eq_self hTail
    · rw [List.singleton_append, lstripChar_cons_self]
      exact lstripChar_eq_self hTail
  have hMid : ∀ c ∈ A ++ (',' :: B), ¬ c = ')' := by
    intro c hcm
    simp only [List.mem_append, List.mem_cons] at hcm
    rcases hcm with hC | rfl | hE
    · exact (hA c hC).2.2
    · decide
    · exact (hB c hE).2.2
  have h2 : rstripChar ')' (A ++ (',' :: (B ++ parR))) =
      A ++ (',' :: B) := by
    rcases hR with rfl | rfl
    · rw [List.append_nil]
      exact rstripChar_eq_self hMid
    · rw [show A ++ (',' :: (B ++ [')'])) = (A ++ (',' :: B)) ++ [')']
        by simp]
      rw [rstripChar_append_self]
      exact rstripChar_eq_self hMid
  have hMidL : ∀ c ∈ A ++ (',' :: B), ¬ c = '(' := by
    intro c hcm
    simp only [List.mem_append, List.mem_cons] at hcm
    rcases hcm with hC | rfl | hE
    · exact (hA c hC).2.1
    · decide
    · exact (hB c hE).2.1
  rw [h1, h2, lstripChar_eq_self hMidL, rstripChar_eq_self hMid]
  rw [show A ++ (',' :: B) = A ++ ',' :: B from rfl]
  rw [pySplit_append_sep (fun c hc => (hA c hc).1)]
  rw [pySplit_no_sep (fun c hc => (hB c hc).1)]

theorem dropPfx_not_pfx {p l : List Char} (h : p.isPrefixOf l = false) :
    dropPfx p l = l := by
  simp [dropPfx, h]

/-- C2: for every coordinate-form locator `"c,r"` — optional `coords:`
prefix, optional surrounding parentheses, the first comma-separated part
`p0` (optionally followed by whitespace `w0`) and the second part `p1`
(optionally preceded by whitespace `w1`, as in the source-documented
`(1, 5)`) — where both parts parse as integers (optionally signed digit
runs, `pyIntCore` being Python's `int()` after stripping), the resolver
returns `(r, c)`: the first part is parsed as the column and the second as
the row, the reverse of the returned (row, column) order.  The closed
conjuncts evaluate the source docstring's `(1, 5)` example and a
signed-part locator `-1,2`. -/
theorem coord_locator_swaps (pre par : Bool) (p0 p1 w0 w1 : List Char)
    (c0 r0 : Int)
    (hp0 : pyIntCore p0 = .ok c0) (hp1 : pyIntCore p1 = .ok r0)
    (hw0 : ∀ c ∈ w0, pyIsSpace c = true)
    (hw1 : ∀ c ∈ w1, pyIsSpace c = true) :
    _resolve_cell_coordinates
        (mkCoordLocator pre par (p0 ++ w0) (w1 ++ p1)) = .ok (r0, c0) ∧
    _resolve_cell_coordinates ['(', '1', ',', ' ', '5', ')'] = .ok (5, 1) ∧
    _resolve_cell_coordinates ['-', '1', ',', '2'] = .ok (2, -1) := by
  obtain ⟨a0, t0, he0, ha0, -⟩ := pyIntCore_ok_shape hp0
  obtain ⟨a1, t1, he1, -, -⟩ := pyIntCore_ok_shape hp1
  have hch0 := pyIntCore_ok_chars hp0
  have hch1 := pyIntCore_ok_chars hp1
  have hne0 : p0 ≠ [] := by rw [he0]; simp
  have hne1 : p1 ≠ [] := by rw [he1]; simp
  have hp0ns : ∀ c ∈ p0, pyIsSpace c = false := fun c hc => (hch0 c hc).1
  have hp1ns : ∀ c ∈ p1, pyIsSpace c = false := fun c hc => (hch1 c hc).1
  have hW : pyStripWs (mkCoordLocator pre par (p0 ++ w0) (w1 ++ p1)) =
      mkCoordLocator pre par (p0 ++ w0) (w1 ++ p1) := by
    have hAne : (if pre then coordsPfx else []) ++
        ((if par then ['('] else []) ++ p0) ≠ [] := by
      rw [he0]
      simp
    have hAo : ∀ c ∈ (if pre then coordsPfx else []) ++
        ((if par then ['('] else []) ++ p0), pyIsSpace c = false := by
      intro c hcm
      rcases List.mem_append.mp hcm with hP | hQp
      · cases pre with
        | false => simp at hP
        | true =>
          simp [coordsPfx] at hP
          rcases hP with rfl | rfl | rfl | rfl | rfl | rfl | rfl <;> decide
      · rcases List.mem_append.mp hQp with hQ | hp
        · cases par with
          | false => simp at hQ
          | true =>
            simp at hQ
            subst hQ
            decide
        · exact hp0ns c hp
    have hBne : p1 ++ (if par then [')'] else []) ≠ [] := by
      rw [he1]
      simp
    have hBo : ∀ c ∈ p1 ++ (if par then [')'] else []),
        pyIsSpace c = false := by
      intro c hcm
      rcases List.mem_append.mp hcm with hp | hR
      · exact hp1ns c hp
      · cases par with
        | false => simp at hR
        | true =>
          simp at hR
          subst hR
          decide
    have hregroup : mkCoordLocator pre par (p0 ++ w0) (w1 ++ p1) =
        ((if pre then coordsPfx else []) ++
          ((if par then ['('] else []) ++ p0)) ++
          ((w0 ++ (',' :: w1)) ++ (p1 ++ (if par then [')'] else []))) := by
      unfold mkCoordLocator
      simp [List.append_assoc]
    rw [hregroup]
    exact pyStripWs_eq_self_of_ends hAne hAo hBne hBo
  have hM : ',' ∈ mkCoordLocator pre par (p0 ++ w0) (w1 ++ p1) := by
    unfold mkCoordLocator
    simp
  have hPfx : dropPfx coordsPfx (mkCoordLocator pre par (p0 ++ w0)
      (w1 ++ p1)) =
      (if par then ['('] else []) ++ ((p0 ++ w0) ++ (',' :: ((w1 ++ p1) ++
        (if par then [')'] else [])))) := by
    cases pre with
    | true =>
      show dropPfx coordsPfx (coordsPfx ++ _) = _
      exact dropPfx_append
    | false =>
      show dropPfx coordsPfx ([] ++ _) = _
      rw [List.nil_append]
      apply dropPfx_not_pfx
      cases par with
      | true => exact isPrefixOf_cons_false (by decide)
      | false =>
        rw [he0]
        refine isPrefixOf_cons_false ?_
        intro q
        rcases ha0 with hd | rfl | rfl
        · exact pyIsDigit_ne hd (by decide) q.symm
        · exact absurd q.symm (by decide)
        · exact absurd q.symm (by decide)
  have hclsA : ∀ c ∈ p0 ++ w0, ¬ c = ',' ∧ ¬ c = '(' ∧ ¬ c = ')' := by
    intro c hcm
    rcases List.mem_append.mp hcm with h1 | h1
    · exact ⟨(hch0 c h1).2.1, (hch0 c h1).2.2.1, (hch0 c h1).2.2.2⟩
    · have hs := hw0 c h1
      exact ⟨pyIsSpace_ne hs (by decide), pyIsSpace_ne hs (by decide),
        pyIsSpace_ne hs (by decide)⟩
  have hclsB : ∀ c ∈ w1 ++ p1, ¬ c = ',' ∧ ¬ c = '(' ∧ ¬ c = ')' := by
    intro c hcm
    rcases List.mem_append.mp hcm with h1 | h1
    · have hs := hw1 c h1
      exact ⟨pyIsSpace_ne hs (by decide), pyIsSpace_ne hs (by decide),
        pyIsSpace_ne hs (by decide)⟩
    · exact ⟨(hch1 c h1).2.1, (hch1 c h1).2.2.1, (hch1 c h1).2.2.2⟩
  have hi1 : pyInt (pyStripWs (w1 ++ p1)) = .ok r0 := by
    rw [pyStripWs_part_left hp1ns hw1]
    unfold pyInt
    rw [pyStripWs_eq_self hp1ns]
    exact hp1
  have hi0 : pyInt (pyStripWs (p0 ++ w0)) = .ok c0 := by
    rw [pyStripWs_part_right hne0 hp0ns hw0]
    unfold pyInt
    rw [pyStripWs_eq_self hp0ns]
    exact hp0
  refine ⟨?_, by decide, by decide⟩
  simp only [_resolve_cell_coordinates]
  rw [hW, if_pos hM, hPfx]
  rw [coordPipeline (if par then ['('] else []) (if par then [')'] else [])
    (p0 ++ w0) (w1 ++ p1)
    (by cases par with
        | false => exact Or.inl rfl
        | true => exact Or.inr rfl)
    (by cases par with
        | false => exact Or.inl rfl
        | true => exact Or.inr rfl)
    hclsA hclsB]
  simp only [hi1, hi0]
  rfl

/-- C2 (witness): the source-documented locator `(1, 5)` — parentheses and
whitespace after the comma — resolves to row 5, column 1. -/
theorem coord_locator_swaps_witness :
    _resolve_cell_coordinates (mkCoordLocator false true ['1'] [' ', '5']) =
      .ok (5, 1) ∧
    _resolve_cell_coordinates ['(', '1', ',', ' ', '5', ')'] = .ok (5, 1) ∧
    _resolve_cell_coordinates ['-', '1', ',', '2'] = .ok (2, -1) :=
  coord_locator_swaps false true ['1'] ['5'] [] [' '] 1 5 (by decide)
    (by decide) (by decide) (by decide)

end Excellent
